import Mathlib

/-!
Verification development for the pairing/relay server (`server.js`).

The server keeps a FIFO `waitingQueue` of socket ids, a `partners` map from
socket id to either a partner socket id or the sentinel `'bot'`, and a
per-socket `botTimeout` reference to a scheduled bot-fallback callback.
We embed the server shallowly: each `socket.on(...)` handler becomes a Lean
function from a `ServerState` (plus the handler's inputs) to a new state and
the list of emitted events; scheduled `setTimeout` callbacks become `Timer`
values carried in the state and fired by an explicit `fire` operation guarded
by the model clock.
-/

namespace Omegle

/-- Socket ids (`socket.id`); opaque, modelled as naturals. The string
sentinel `'bot'` is kept apart from real ids by the `PVal` sum below. -/
abbrev SocketId := Nat

/-- A value of the `partners` map: a partner socket id or the `'bot'`
sentinel string. -/
inductive PVal where
  | human (i : SocketId)
  | bot
  deriving DecidableEq, Repr

/-- The `from` field of a chat `message` payload: `'you'`, `'stranger'`
or `'bot'`. -/
inductive MsgFrom where
  | you
  | stranger
  | bot
  deriving DecidableEq, Repr

/-- A `socket.emit(...)` performed by the server, recorded with its target
socket and payload. -/
inductive Event where
  | status (dst : SocketId) (msg : String)
  | retry (dst : SocketId)
  | paired (dst : SocketId) (partnerId : PVal) (bot : Bool)
  | partnerLeft (dst : SocketId)
  | message (dst : SocketId) (fr : MsgFrom) (text : String)
  | offer (dst fr : SocketId) (sdp : String)
  | answer (dst fr : SocketId) (sdp : String)
  | ice (dst fr : SocketId) (candidate : String)
  | typing (dst : SocketId) (flag : Bool)
  deriving DecidableEq, Repr

/-- What a pending `setTimeout` callback will do: the bot-fallback body
scheduled by `find`, or the delayed bot reply scheduled by `message`. -/
inductive TimerKind where
  | botFallback
  | botReply (text : String)
  deriving DecidableEq, Repr

/-- A pending `setTimeout` callback: its handle (`tid`), the socket that
scheduled it, its due time on the model clock, and its body. -/
structure Timer where
  tid : Nat
  owner : SocketId
  fireAt : Nat
  kind : TimerKind
  deriving DecidableEq, Repr

/-- The server's mutable state: the live-socket registry
(`io.sockets.sockets`, restricted to connected sockets), `waitingQueue`,
the `partners` map, the pending timers, each socket's `socket.botTimeout`
reference (the id of the last bot-fallback timer it scheduled), a fresh
timer-id counter, the model clock in milliseconds, and the set of ids ever
issued (socket ids are never reused). -/
structure ServerState where
  registry : List SocketId
  waitingQueue : List SocketId
  partners : SocketId → Option PVal
  timers : List Timer
  botRef : SocketId → Option Nat
  nextTid : Nat
  now : Nat
  used : List SocketId

/-- The state at server start: no sockets, empty queue, empty map. -/
def init : ServerState :=
  { registry := []
    waitingQueue := []
    partners := fun _ => none
    timers := []
    botRef := fun _ => none
    nextTid := 0
    now := 0
    used := [] }

/-- `partners.set(k, v)`. -/
def pset (f : SocketId → Option PVal) (k : SocketId) (v : PVal) :
    SocketId → Option PVal :=
  fun x => if x = k then some v else f x

/-- `partners.delete(k)`. -/
def pdel (f : SocketId → Option PVal) (k : SocketId) :
    SocketId → Option PVal :=
  fun x => if x = k then none else f x

/-- The `ENABLE_BOT_FALLBACK` toggle from the source. -/
def ENABLE_BOT_FALLBACK : Bool := true

/-- The bot greeting sent when the fallback fires. -/
def botGreeting : String :=
  "Hi — I\x27m a bot while you wait. Try \x27New\x27 to find a human."

/-- The templated bot reply built from a submitted chat text. -/
def botReplyText (text : String) : String :=
  "Bot: I heard \"" ++ text ++ "\"."

/-- `pairSockets(s1, s2)`: set both directory entries (second `set` wins on
collision, as in a JS `Map`) and emit `paired` to both sides. Room joins
carry no model-relevant state and are omitted. -/
def pairSockets (s : ServerState) (s1 s2 : SocketId) :
    ServerState × List Event :=
  ({ s with partners := pset (pset s.partners s1 (PVal.human s2)) s2 (PVal.human s1) },
   [Event.paired s1 (PVal.human s2) false, Event.paired s2 (PVal.human s1) false])

/-- The body of the `setTimeout` scheduled in `find`: re-check that the
socket is still queued and unpaired, then remove it from the queue, record a
bot pairing and notify it. -/
def botFallbackCb (s : ServerState) (h : SocketId) : ServerState × List Event :=
  if h ∈ s.waitingQueue ∧ s.partners h = none then
    ({ s with waitingQueue := s.waitingQueue.filter (fun x => x ≠ h)
              partners := pset s.partners h PVal.bot },
     [Event.paired h PVal.bot true, Event.message h MsgFrom.bot botGreeting])
  else
    (s, [])

/-- Schedule the bot-fallback `setTimeout` for `h` (15000 ms) and store its
handle in `socket.botTimeout`. -/
def scheduleBotTimer (s : ServerState) (h : SocketId) : ServerState :=
  { s with timers := s.timers ++ [⟨s.nextTid, h, s.now + 15000, TimerKind.botFallback⟩]
           botRef := fun x => if x = h then some s.nextTid else s.botRef x
           nextTid := s.nextTid + 1 }

/-- `socket.on('find')`: reject if already in `partners`; otherwise pop the
queue head and pair if its socket is still live, signal a retry if it is
not, or enqueue and schedule the bot fallback if the queue was empty. -/
def onFind (s : ServerState) (h : SocketId) : ServerState × List Event :=
  if (s.partners h).isSome then
    (s, [Event.status h "Already connected"])
  else
    match s.waitingQueue with
    | other :: rest =>
        if other ∈ s.registry then
          pairSockets { s with waitingQueue := rest } h other
        else
          ({ s with waitingQueue := rest },
           [Event.status h "Candidate disconnected; retrying...", Event.retry h])
    | [] =>
        let s1 := { s with waitingQueue := s.waitingQueue ++ [h] }
        (if ENABLE_BOT_FALLBACK then scheduleBotTimer s1 h else s1,
         [Event.status h "Waiting for a partner..."])

/-- `socket.on('webrtc-offer')`: look up the partner; silently return if
absent or bot; forward the sdp if the partner socket is live, else tell the
sender the partner disconnected. -/
def onOffer (s : ServerState) (h : SocketId) (sdp : String) :
    ServerState × List Event :=
  match s.partners h with
  | none => (s, [])
  | some PVal.bot => (s, [])
  | some (PVal.human p) =>
      if p ∈ s.registry then (s, [Event.offer p h sdp])
      else (s, [Event.status h "Partner disconnected (during offer)."])

/-- `socket.on('webrtc-answer')`: look up `payload.to` directly in the
socket registry and forward the sdp if that socket is live; no `partners`
lookup is made and nothing is emitted otherwise. -/
def onAnswer (s : ServerState) (h : SocketId) (tgt : SocketId) (sdp : String) :
    ServerState × List Event :=
  if tgt ∈ s.registry then (s, [Event.answer tgt h sdp]) else (s, [])

/-- `socket.on('webrtc-ice-candidate')`: like the offer path but with no
status message on a dead partner. -/
def onIce (s : ServerState) (h : SocketId) (candidate : String) :
    ServerState × List Event :=
  match s.partners h with
  | none => (s, [])
  | some PVal.bot => (s, [])
  | some (PVal.human p) =>
      if p ∈ s.registry then (s, [Event.ice p h candidate]) else (s, [])

/-- `cleanupPartner(socketId)`. -/
def cleanupPartner (s : ServerState) (h : SocketId) : ServerState :=
  match s.partners h with
  | none => s
  | some PVal.bot => { s with partners := pdel s.partners h }
  | some (PVal.human p) => { s with partners := pdel (pdel s.partners p) h }

/-- `socket.on('message')`: no partner yields a status; a bot partner
schedules the delayed (700 ms) bot reply; a live human partner receives the
text as `stranger` while the sender gets the `you` echo; a dead human
partner yields a status plus `cleanupPartner`. -/
def onMessage (s : ServerState) (h : SocketId) (text : String) :
    ServerState × List Event :=
  match s.partners h with
  | none => (s, [Event.status h "No partner to send to."])
  | some PVal.bot =>
      ({ s with timers := s.timers ++ [⟨s.nextTid, h, s.now + 700, TimerKind.botReply text⟩]
                nextTid := s.nextTid + 1 }, [])
  | some (PVal.human p) =>
      if p ∈ s.registry then
        (s, [Event.message p MsgFrom.stranger text, Event.message h MsgFrom.you text])
      else
        (cleanupPartner s h, [Event.status h "Partner disconnected."])

/-- `socket.on('typing')`: forward the flag to a live human partner only. -/
def onTyping (s : ServerState) (h : SocketId) (flag : Bool) :
    ServerState × List Event :=
  match s.partners h with
  | none => (s, [])
  | some PVal.bot => (s, [])
  | some (PVal.human p) =>
      if p ∈ s.registry then (s, [Event.typing p flag]) else (s, [])

/-- `socket.on('leave')`: bot pairing deleted; no pairing means dequeue;
a human pairing notifies the partner (when live) and deletes both entries
(`partners.delete(socket.id)` runs unconditionally in the source). -/
def onLeave (s : ServerState) (h : SocketId) : ServerState × List Event :=
  match s.partners h with
  | some PVal.bot =>
      ({ s with partners := pdel s.partners h }, [Event.status h "Left bot conversation."])
  | none =>
      ({ s with waitingQueue := s.waitingQueue.filter (fun x => x ≠ h) },
       [Event.status h "Stopped waiting."])
  | some (PVal.human p) =>
      if p ∈ s.registry then
        ({ s with partners := pdel (pdel s.partners p) h },
         [Event.status p "Partner left the chat.", Event.partnerLeft p,
          Event.status h "You left the chat."])
      else
        ({ s with partners := pdel s.partners h }, [Event.status h "You left the chat."])

/-- `socket.on('disconnect')`: the socket has left the registry; clear the
referenced `botTimeout`, drop the id from the queue, then tear down any
pairing, notifying a live human partner. -/
def onDisconnect (s : ServerState) (h : SocketId) : ServerState × List Event :=
  let s1 : ServerState :=
    { s with registry := s.registry.filter (fun x => x ≠ h)
             timers := match s.botRef h with
                       | some tid => s.timers.filter (fun t => t.tid ≠ tid)
                       | none => s.timers
             waitingQueue := s.waitingQueue.filter (fun x => x ≠ h) }
  match s1.partners h with
  | none => (s1, [])
  | some PVal.bot => ({ s1 with partners := pdel s1.partners h }, [])
  | some (PVal.human p) =>
      if p ∈ s1.registry then
        ({ s1 with partners := pdel (pdel s1.partners p) h },
         [Event.status p "Partner disconnected.", Event.partnerLeft p])
      else
        ({ s1 with partners := pdel s1.partners h }, [])

/-- Fire a pending timer: the callback leaves the timer list (a fired
timeout is spent), then its body runs. -/
def fireTimer (s : ServerState) (t : Timer) : ServerState × List Event :=
  let s1 : ServerState := { s with timers := s.timers.filter (fun u => u.tid ≠ t.tid) }
  match t.kind with
  | TimerKind.botFallback => botFallbackCb s1 t.owner
  | TimerKind.botReply text =>
      (s1, [Event.message t.owner MsgFrom.bot (botReplyText text)])

/-- An operation applied to the server: a socket connecting, a client event
from a connected socket, a due timer firing, or the clock advancing. -/
inductive Op where
  | connect (h : SocketId)
  | find (h : SocketId)
  | leave (h : SocketId)
  | disconnect (h : SocketId)
  | message (h : SocketId) (text : String)
  | offer (h : SocketId) (sdp : String)
  | answer (h : SocketId) (tgt : SocketId) (sdp : String)
  | ice (h : SocketId) (candidate : String)
  | typing (h : SocketId) (flag : Bool)
  | fire (tid : Nat)
  | tick (d : Nat)
  deriving DecidableEq, Repr

/-- Apply one operation. Client events are delivered only for connected
sockets; a fresh socket id is never reused; a timer fires only once due.
Operations whose guard fails leave the state unchanged. -/
def exec (s : ServerState) (op : Op) : ServerState × List Event :=
  match op with
  | Op.connect h =>
      if h ∈ s.used then (s, [])
      else ({ s with registry := h :: s.registry, used := h :: s.used }, [])
  | Op.find h => if h ∈ s.registry then onFind s h else (s, [])
  | Op.leave h => if h ∈ s.registry then onLeave s h else (s, [])
  | Op.disconnect h => if h ∈ s.registry then onDisconnect s h else (s, [])
  | Op.message h text => if h ∈ s.registry then onMessage s h text else (s, [])
  | Op.offer h sdp => if h ∈ s.registry then onOffer s h sdp else (s, [])
  | Op.answer h tgt sdp => if h ∈ s.registry then onAnswer s h tgt sdp else (s, [])
  | Op.ice h c => if h ∈ s.registry then onIce s h c else (s, [])
  | Op.typing h f => if h ∈ s.registry then onTyping s h f else (s, [])
  | Op.fire tid =>
      match s.timers.find? (fun t => t.tid == tid) with
      | some t => if t.fireAt ≤ s.now then fireTimer s t else (s, [])
      | none => (s, [])
  | Op.tick d => ({ s with now := s.now + d }, [])

/-- Run a list of operations, keeping the final state. -/
def execState (s : ServerState) (ops : List Op) : ServerState :=
  ops.foldl (fun st op => (exec st op).1) s

/-- The run used for the matching claims: every handle in `hs` connects,
then the handles in `fs` issue `find` in order. -/
def findRun (hs fs : List SocketId) : ServerState :=
  execState init (hs.map Op.connect ++ fs.map Op.find)

/-- Concrete state: a single connected socket `0`, not waiting, unpaired. -/
def sone : ServerState := execState init [Op.connect 0]

/-- Concrete state: sockets `0` and `1` connected and paired with each other
(socket `0` waited first; its bot-fallback timer is still pending). -/
def spair : ServerState :=
  execState init [Op.connect 0, Op.connect 1, Op.find 0, Op.find 1]

/-- Concrete state: socket `5` connected and waiting in the queue. -/
def swait : ServerState := execState init [Op.connect 5, Op.find 5]

/-- Concrete state: socket `0` connected, waited 15 s, and was bot-paired by
its fallback timer. -/
def sbot : ServerState :=
  execState init [Op.connect 0, Op.find 0, Op.tick 15000, Op.fire 0]

/-- A state in which socket `0` holds a directory entry for socket `1` whose
transport is no longer live. Serialized execution never produces this state
(disconnect cleans both entries), but the offer handler has an explicit
branch for it, so we exercise the handler on it directly. -/
def sbad : ServerState :=
  { registry := [0]
    waitingQueue := []
    partners := fun x => if x = 0 then some (PVal.human 1) else none
    timers := []
    botRef := fun _ => none
    nextTid := 0
    now := 0
    used := [0, 1] }

/-- Concrete state: sockets `0` and `1` connected, neither paired. -/
def sconn : ServerState := execState init [Op.connect 0, Op.connect 1]

/-- No handle's partner-directory entry is the handle itself. -/
def NoSelfPairing (s : ServerState) : Prop :=
  ∀ h : SocketId, s.partners h ≠ some (PVal.human h)

/-- The find → leave → find scenario of claim C3: socket `0` enqueues at
t=0, leaves at t=1000, re-enqueues at t=1000, and the clock reaches 15000. -/
def c3ops : List Op :=
  [Op.connect 0, Op.find 0, Op.tick 1000, Op.leave 0, Op.find 0, Op.tick 14000]

/-- The reachability invariant of the server state: the queue never holds
more than one handle (the source pushes only when the queue is empty), every
queued handle is unpaired and live, the partner directory is symmetric on
human entries, and every human directory entry refers to live sockets on
both sides. -/
structure Inv (s : ServerState) : Prop where
  qlen : s.waitingQueue.length ≤ 1
  qUnpaired : ∀ h, h ∈ s.waitingQueue → s.partners h = none
  qLive : ∀ h, h ∈ s.waitingQueue → h ∈ s.registry
  sym : ∀ a b, s.partners a = some (PVal.human b) → s.partners b = some (PVal.human a)
  pLive : ∀ a b, s.partners a = some (PVal.human b) → a ∈ s.registry ∧ b ∈ s.registry

/-- Invariant for runs consisting of `find` calls from distinct handles:
`done` collects the handles that have issued `find`; each of them is either
waiting (unpaired) or paired with a different handle; only handles in `done`
are paired or queued. -/
structure FindInv (done : List SocketId) (s : ServerState) : Prop where
  base : Inv s
  settled : ∀ x, x ∈ done →
    (x ∈ s.waitingQueue ∧ s.partners x = none) ∨
    (∃ p, p ≠ x ∧ s.partners x = some (PVal.human p))
  dom : ∀ x, (s.partners x).isSome → x ∈ done
  qdom : ∀ x, x ∈ s.waitingQueue → x ∈ done

theorem pset_self (f : SocketId → Option PVal) (k : SocketId) (v : PVal) :
    pset f k v k = some v := by simp [pset]

theorem pset_other (f : SocketId → Option PVal) (k : SocketId) (v : PVal)
    (x : SocketId) (h : x ≠ k) : pset f k v x = f x := by simp [pset, h]

theorem pdel_self (f : SocketId → Option PVal) (k : SocketId) :
    pdel f k k = none := by simp [pdel]

theorem pdel_other (f : SocketId → Option PVal) (k : SocketId)
    (x : SocketId) (h : x ≠ k) : pdel f k x = f x := by simp [pdel, h]

theorem pdel_pres_none (f : SocketId → Option PVal) (k x : SocketId)
    (hx : f x = none) : pdel f k x = none := by
  simp [pdel]; intro _; exact hx

theorem pairSockets_partners (s : ServerState) (s1 s2 x : SocketId) :
    (pairSockets s s1 s2).1.partners x =
      if x = s2 then some (PVal.human s1)
      else if x = s1 then some (PVal.human s2)
      else s.partners x := by
  simp [pairSockets, pset]

theorem inv_init : Inv init := by
  constructor <;> simp [init]

theorem inv_onFind (s : ServerState) (h : SocketId) (hreg : h ∈ s.registry)
    (I : Inv s) : Inv (onFind s h).1 := by
  obtain ⟨qlen, qUnp, qLiv, sym, pLive⟩ := I
  cases hp : s.partners h with
  | some v =>
      have he : (onFind s h).1 = s := by simp [onFind, hp]
      rw [he]; exact ⟨qlen, qUnp, qLiv, sym, pLive⟩
  | none =>
      cases hq : s.waitingQueue with
      | nil =>
          have he : (onFind s h).1 =
              scheduleBotTimer { s with waitingQueue := s.waitingQueue ++ [h] } h := by
            simp [onFind, hp, hq, ENABLE_BOT_FALLBACK]
          rw [he]
          refine ⟨?_, ?_, ?_, ?_, ?_⟩
          · simp [scheduleBotTimer, hq]
          · intro x hx
            simp [scheduleBotTimer, hq] at hx
            simp [scheduleBotTimer, hx, hp]
          · intro x hx
            simp [scheduleBotTimer, hq] at hx
            simpa [scheduleBotTimer, hx] using hx ▸ hreg
          · intro a b hab
            exact sym a b hab
          · intro a b hab
            exact pLive a b hab
      | cons other rest =>
          have hrest : rest = [] := by
            have hl := qlen
            rw [hq] at hl
            simpa using hl
          have hom : other ∈ s.waitingQueue := by rw [hq]; exact List.mem_cons_self _ _
          have horeg : other ∈ s.registry := qLiv other hom
          have hopn : s.partners other = none := qUnp other hom
          have he : (onFind s h).1 = (pairSockets { s with waitingQueue := rest } h other).1 := by
            simp [onFind, hp, hq, horeg]
          rw [he]
          refine ⟨?_, ?_, ?_, ?_, ?_⟩
          · simp [pairSockets, hrest]
          · intro x hx; simp [pairSockets, hrest] at hx
          · intro x hx; simp [pairSockets, hrest] at hx
          · intro a b hab
            rw [show ({ s with waitingQueue := rest } : ServerState).partners = s.partners from rfl] at hab
            rw [pairSockets_partners] at hab ⊢
            by_cases h1 : a = other
            · subst h1
              rw [if_pos rfl] at hab
              have hb : h = b := by simpa using hab
              subst hb
              by_cases h2 : h = a
              · rw [if_pos h2, h2]
              · rw [if_neg h2, if_pos rfl]
            · by_cases h2 : a = h
              · subst h2
                rw [if_neg h1, if_pos rfl] at hab
                have hb : other = b := by simpa using hab
                subst hb
                rw [if_pos rfl]
              · rw [if_neg h1, if_neg h2] at hab
                have hold := sym a b hab
                have hbh : b ≠ h := by
                  intro hbh; rw [hbh, hp] at hold; exact Option.noConfusion hold
                have hbo : b ≠ other := by
                  intro hbo; rw [hbo, hopn] at hold; exact Option.noConfusion hold
                rw [if_neg hbo, if_neg hbh]
                exact hold
          · intro a b hab
            rw [show ({ s with waitingQueue := rest } : ServerState).partners = s.partners from rfl] at hab
            rw [pairSockets_partners] at hab
            by_cases h1 : a = other
            · subst h1
              rw [if_pos rfl] at hab
              have hb : h = b := by simpa using hab
              subst hb
              exact ⟨horeg, hreg⟩
            · by_cases h2 : a = h
              · subst h2
                rw [if_neg h1, if_pos rfl] at hab
                have hb : other = b := by simpa using hab
                subst hb
                exact ⟨hreg, horeg⟩
              · rw [if_neg h1, if_neg h2] at hab
                exact pLive a b hab

theorem inv_onLeave (s : ServerState) (h : SocketId) (I : Inv s) :
    Inv (onLeave s h).1 := by
  obtain ⟨qlen, qUnp, qLiv, sym, pLive⟩ := I
  cases hp : s.partners h with
  | none =>
      have he : (onLeave s h).1 =
          { s with waitingQueue := s.waitingQueue.filter (fun x => x ≠ h) } := by
        simp [onLeave, hp]
      rw [he]
      refine ⟨?_, ?_, ?_, sym, pLive⟩
      · exact le_trans (List.length_filter_le _ _) qlen
      · intro x hx
        simp only [List.mem_filter] at hx
        exact qUnp x hx.1
      · intro x hx
        simp only [List.mem_filter] at hx
        exact qLiv x hx.1
  | some v =>
      cases v with
      | bot =>
          have he : (onLeave s h).1 = { s with partners := pdel s.partners h } := by
            simp [onLeave, hp]
          rw [he]
          refine ⟨qlen, ?_, qLiv, ?_, ?_⟩
          · intro x hx
            exact pdel_pres_none _ _ _ (qUnp x hx)
          · intro a b hab
            simp only [pdel] at hab ⊢
            have hah : a ≠ h := by
              intro hh; rw [if_pos hh] at hab; exact Option.noConfusion hab
            rw [if_neg hah] at hab
            have hold := sym a b hab
            have hbh : b ≠ h := by
              intro hh; rw [hh, hp] at hold; simp at hold
            rw [if_neg hbh]
            exact hold
          · intro a b hab
            simp only [pdel] at hab
            have hah : a ≠ h := by
              intro hh; rw [if_pos hh] at hab; exact Option.noConfusion hab
            rw [if_neg hah] at hab
            exact pLive a b hab
      | human p =>
          have hpreg : p ∈ s.registry := (pLive h p hp).2
          have he : (onLeave s h).1 =
              { s with partners := pdel (pdel s.partners p) h } := by
            simp [onLeave, hp, hpreg]
          rw [he]
          have hph : s.partners p = some (PVal.human h) := sym h p hp
          refine ⟨qlen, ?_, qLiv, ?_, ?_⟩
          · intro x hx
            exact pdel_pres_none _ _ _ (pdel_pres_none _ _ _ (qUnp x hx))
          · intro a b hab
            simp only [pdel] at hab ⊢
            have hah : a ≠ h := by
              intro hh; rw [if_pos hh] at hab; exact Option.noConfusion hab
            rw [if_neg hah] at hab
            have hap : a ≠ p := by
              intro hh; rw [if_pos hh] at hab; exact Option.noConfusion hab
            rw [if_neg hap] at hab
            have hold := sym a b hab
            have hbh : b ≠ h := by
              intro hh; rw [hh, hp] at hold; simp at hold; exact hap hold.symm
            have hbp : b ≠ p := by
              intro hh; rw [hh, hph] at hold; simp at hold; exact hah hold.symm
            rw [if_neg hbh, if_neg hbp]
            exact hold
          · intro a b hab
            simp only [pdel] at hab
            have hah : a ≠ h := by
              intro hh; rw [if_pos hh] at hab; exact Option.noConfusion hab
            rw [if_neg hah] at hab
            have hap : a ≠ p := by
              intro hh; rw [if_pos hh] at hab; exact Option.noConfusion hab
            rw [if_neg hap] at hab
            exact pLive a b hab

theorem onDisconnect_queue (s : ServerState) (h : SocketId) :
    (onDisconnect s h).1.waitingQueue = s.waitingQueue.filter (fun x => x ≠ h) := by
  unfold onDisconnect
  cases hpp : s.partners h with
  | none => simp [hpp]
  | some v =>
      cases v with
      | bot => simp [hpp]
      | human p =>
          simp only [hpp]
          split <;> rfl

theorem onDisconnect_registry (s : ServerState) (h : SocketId) :
    (onDisconnect s h).1.registry = s.registry.filter (fun x => x ≠ h) := by
  unfold onDisconnect
  cases hpp : s.partners h with
  | none => simp [hpp]
  | some v =>
      cases v with
      | bot => simp [hpp]
      | human p =>
          simp only [hpp]
          split <;> rfl

theorem inv_onDisconnect (s : ServerState) (h : SocketId) (I : Inv s) :
    Inv (onDisconnect s h).1 := by
  obtain ⟨qlen, qUnp, qLiv, sym, pLive⟩ := I
  have hque := onDisconnect_queue s h
  have hreg := onDisconnect_registry s h
  cases hpp : s.partners h with
  | none =>
      have hpar : (onDisconnect s h).1.partners = s.partners := by
        unfold onDisconnect; simp [hpp]
      refine ⟨?_, ?_, ?_, ?_, ?_⟩
      · rw [hque]; exact le_trans (List.length_filter_le _ _) qlen
      · intro x hx; rw [hque] at hx; simp only [List.mem_filter] at hx
        rw [hpar]; exact qUnp x hx.1
      · intro x hx; rw [hque] at hx; simp only [List.mem_filter] at hx
        rw [hreg]; simp only [List.mem_filter]
        exact ⟨qLiv x hx.1, hx.2⟩
      · intro a b hab; rw [hpar] at hab ⊢; exact sym a b hab
      · intro a b hab; rw [hpar] at hab
        rw [hreg]; simp only [List.mem_filter]
        have hold := sym a b hab
        have h2 := pLive a b hab
        have hah : a ≠ h := by
          intro hh; rw [hh, hpp] at hab; exact Option.noConfusion hab
        have hbh : b ≠ h := by
          intro hh; rw [hh, hpp] at hold; exact Option.noConfusion hold
        exact ⟨⟨h2.1, by simpa using hah⟩, ⟨h2.2, by simpa using hbh⟩⟩
  | some v =>
      cases v with
      | bot =>
          have hpar : (onDisconnect s h).1.partners = pdel s.partners h := by
            unfold onDisconnect; simp [hpp]
          refine ⟨?_, ?_, ?_, ?_, ?_⟩
          · rw [hque]; exact le_trans (List.length_filter_le _ _) qlen
          · intro x hx; rw [hque] at hx; simp only [List.mem_filter] at hx
            rw [hpar]; exact pdel_pres_none _ _ _ (qUnp x hx.1)
          · intro x hx; rw [hque] at hx; simp only [List.mem_filter] at hx
            rw [hreg]; simp only [List.mem_filter]
            exact ⟨qLiv x hx.1, hx.2⟩
          · intro a b hab; rw [hpar] at hab ⊢
            simp only [pdel] at hab ⊢
            have hah : a ≠ h := by
              intro hh; rw [if_pos hh] at hab; exact Option.noConfusion hab
            rw [if_neg hah] at hab
            have hold := sym a b hab
            have hbh : b ≠ h := by
              intro hh; rw [hh, hpp] at hold; simp at hold
            rw [if_neg hbh]
            exact hold
          · intro a b hab; rw [hpar] at hab
            simp only [pdel] at hab
            have hah : a ≠ h := by
              intro hh; rw [if_pos hh] at hab; exact Option.noConfusion hab
            rw [if_neg hah] at hab
            have hold := sym a b hab
            have hbh : b ≠ h := by
              intro hh; rw [hh, hpp] at hold; simp at hold
            have h2 := pLive a b hab
            rw [hreg]; simp only [List.mem_filter]
            exact ⟨⟨h2.1, by simpa using hah⟩, ⟨h2.2, by simpa using hbh⟩⟩
      | human p =>
          have hpreg : p ∈ s.registry := (pLive h p hpp).2
          have hph : s.partners p = some (PVal.human h) := sym h p hpp
          by_cases hpe : p = h
          · have hpar : (onDisconnect s h).1.partners = pdel s.partners h := by
              unfold onDisconnect; simp [hpp, hpe]
            refine ⟨?_, ?_, ?_, ?_, ?_⟩
            · rw [hque]; exact le_trans (List.length_filter_le _ _) qlen
            · intro x hx; rw [hque] at hx; simp only [List.mem_filter] at hx
              rw [hpar]; exact pdel_pres_none _ _ _ (qUnp x hx.1)
            · intro x hx; rw [hque] at hx; simp only [List.mem_filter] at hx
              rw [hreg]; simp only [List.mem_filter]
              exact ⟨qLiv x hx.1, hx.2⟩
            · intro a b hab; rw [hpar] at hab ⊢
              simp only [pdel] at hab ⊢
              have hah : a ≠ h := by
                intro hh; rw [if_pos hh] at hab; exact Option.noConfusion hab
              rw [if_neg hah] at hab
              have hold := sym a b hab
              have hbh : b ≠ h := by
                intro hh; rw [hh, hpp] at hold; simp at hold
                exact hah (hold.symm.trans hpe)
              rw [if_neg hbh]
              exact hold
            · intro a b hab; rw [hpar] at hab
              simp only [pdel] at hab
              have hah : a ≠ h := by
                intro hh; rw [if_pos hh] at hab; exact Option.noConfusion hab
              rw [if_neg hah] at hab
              have hold := sym a b hab
              have hbh : b ≠ h := by
                intro hh; rw [hh, hpp] at hold; simp at hold
                exact hah (hold.symm.trans hpe)
              have h2 := pLive a b hab
              rw [hreg]; simp only [List.mem_filter]
              exact ⟨⟨h2.1, by simpa using hah⟩, ⟨h2.2, by simpa using hbh⟩⟩
          · have hpar : (onDisconnect s h).1.partners = pdel (pdel s.partners p) h := by
              unfold onDisconnect; simp [hpp, hpreg, hpe]
            refine ⟨?_, ?_, ?_, ?_, ?_⟩
            · rw [hque]; exact le_trans (List.length_filter_le _ _) qlen
            · intro x hx; rw [hque] at hx; simp only [List.mem_filter] at hx
              rw [hpar]; exact pdel_pres_none _ _ _ (pdel_pres_none _ _ _ (qUnp x hx.1))
            · intro x hx; rw [hque] at hx; simp only [List.mem_filter] at hx
              rw [hreg]; simp only [List.mem_filter]
              exact ⟨qLiv x hx.1, hx.2⟩
            · intro a b hab; rw [hpar] at hab ⊢
              simp only [pdel] at hab ⊢
              have hah : a ≠ h := by
                intro hh; rw [if_pos hh] at hab; exact Option.noConfusion hab
              rw [if_neg hah] at hab
              have hap : a ≠ p := by
                intro hh; rw [if_pos hh] at hab; exact Option.noConfusion hab
              rw [if_neg hap] at hab
              have hold := sym a b hab
              have hbh : b ≠ h := by
                intro hh; rw [hh, hpp] at hold; simp at hold; exact hap hold.symm
              have hbp : b ≠ p := by
                intro hh; rw [hh, hph] at hold; simp at hold; exact hah hold.symm
              rw [if_neg hbh, if_neg hbp]
              exact hold
            · intro a b hab; rw [hpar] at hab
              simp only [pdel] at hab
              have hah : a ≠ h := by
                intro hh; rw [if_pos hh] at hab; exact Option.noConfusion hab
              rw [if_neg hah] at hab
              have hap : a ≠ p := by
                intro hh; rw [if_pos hh] at hab; exact Option.noConfusion hab
              rw [if_neg hap] at hab
              have hold := sym a b hab
              have hbh : b ≠ h := by
                intro hh; rw [hh, hpp] at hold; simp at hold; exact hap hold.symm
              have h2 := pLive a b hab
              rw [hreg]; simp only [List.mem_filter]
              exact ⟨⟨h2.1, by simpa using hah⟩, ⟨h2.2, by simpa using hbh⟩⟩

theorem inv_onMessage (s : ServerState) (h : SocketId) (text : String)
    (I : Inv s) : Inv (onMessage s h text).1 := by
  obtain ⟨qlen, qUnp, qLiv, sym, pLive⟩ := I
  cases hp : s.partners h with
  | none =>
      have he : (onMessage s h text).1 = s := by simp [onMessage, hp]
      rw [he]; exact ⟨qlen, qUnp, qLiv, sym, pLive⟩
  | some v =>
      cases v with
      | bot =>
          have he : (onMessage s h text).1 =
              { s with timers := s.timers ++ [⟨s.nextTid, h, s.now + 700, TimerKind.botReply text⟩]
                       nextTid := s.nextTid + 1 } := by
            simp [onMessage, hp]
          rw [he]
          exact ⟨qlen, qUnp, qLiv, sym, pLive⟩
      | human p =>
          have hpreg : p ∈ s.registry := (pLive h p hp).2
          have he : (onMessage s h text).1 = s := by simp [onMessage, hp, hpreg]
          rw [he]; exact ⟨qlen, qUnp, qLiv, sym, pLive⟩

theorem inv_botFallbackCb (s : ServerState) (o : SocketId) (I : Inv s) :
    Inv (botFallbackCb s o).1 := by
  obtain ⟨qlen, qUnp, qLiv, sym, pLive⟩ := I
  by_cases hc : o ∈ s.waitingQueue ∧ s.partners o = none
  · have he : (botFallbackCb s o).1 =
        { s with waitingQueue := s.waitingQueue.filter (fun x => x ≠ o)
                 partners := pset s.partners o PVal.bot } := by
      simp [botFallbackCb, hc]
    rw [he]
    refine ⟨?_, ?_, ?_, ?_, ?_⟩
    · exact le_trans (List.length_filter_le _ _) qlen
    · intro x hx
      simp only [List.mem_filter] at hx
      have hxo : x ≠ o := by simpa using hx.2
      simp only [pset, if_neg hxo]
      exact qUnp x hx.1
    · intro x hx
      simp only [List.mem_filter] at hx
      exact qLiv x hx.1
    · intro a b hab
      simp only [pset] at hab ⊢
      have hao : a ≠ o := by
        intro hh; rw [if_pos hh] at hab; simp at hab
      rw [if_neg hao] at hab
      have hold := sym a b hab
      have hbo : b ≠ o := by
        intro hh; rw [hh, hc.2] at hold; exact Option.noConfusion hold
      rw [if_neg hbo]
      exact hold
    · intro a b hab
      simp only [pset] at hab
      have hao : a ≠ o := by
        intro hh; rw [if_pos hh] at hab; simp at hab
      rw [if_neg hao] at hab
      exact pLive a b hab
  · have he : (botFallbackCb s o).1 = s := by simp [botFallbackCb, hc]
    rw [he]; exact ⟨qlen, qUnp, qLiv, sym, pLive⟩

theorem inv_fireTimer (s : ServerState) (t : Timer) (I : Inv s) :
    Inv (fireTimer s t).1 := by
  obtain ⟨qlen, qUnp, qLiv, sym, pLive⟩ := I
  have I1 : Inv { s with timers := s.timers.filter (fun u => u.tid ≠ t.tid) } :=
    ⟨qlen, qUnp, qLiv, sym, pLive⟩
  cases hk : t.kind with
  | botFallback =>
      have he : (fireTimer s t).1 =
          (botFallbackCb { s with timers := s.timers.filter (fun u => u.tid ≠ t.tid) } t.owner).1 := by
        simp [fireTimer, hk]
      rw [he]
      exact inv_botFallbackCb _ _ I1
  | botReply text =>
      have he : (fireTimer s t).1 =
          { s with timers := s.timers.filter (fun u => u.tid ≠ t.tid) } := by
        simp [fireTimer, hk]
      rw [he]
      exact I1

theorem onOffer_fst (s : ServerState) (h : SocketId) (sdp : String) :
    (onOffer s h sdp).1 = s := by
  unfold onOffer
  cases s.partners h with
  | none => rfl
  | some v =>
      cases v with
      | bot => rfl
      | human p => by_cases hp : p ∈ s.registry <;> simp [hp]

theorem onAnswer_fst (s : ServerState) (h tgt : SocketId) (sdp : String) :
    (onAnswer s h tgt sdp).1 = s := by
  unfold onAnswer
  by_cases ht : tgt ∈ s.registry <;> simp [ht]

theorem onIce_fst (s : ServerState) (h : SocketId) (c : String) :
    (onIce s h c).1 = s := by
  unfold onIce
  cases s.partners h with
  | none => rfl
  | some v =>
      cases v with
      | bot => rfl
      | human p => by_cases hp : p ∈ s.registry <;> simp [hp]

theorem onTyping_fst (s : ServerState) (h : SocketId) (f : Bool) :
    (onTyping s h f).1 = s := by
  unfold onTyping
  cases s.partners h with
  | none => rfl
  | some v =>
      cases v with
      | bot => rfl
      | human p => by_cases hp : p ∈ s.registry <;> simp [hp]

theorem inv_exec (s : ServerState) (op : Op) (I : Inv s) : Inv (exec s op).1 := by
  obtain ⟨qlen, qUnp, qLiv, sym, pLive⟩ := I
  cases op with
  | connect h =>
      by_cases hu : h ∈ s.used
      · have he : (exec s (Op.connect h)).1 = s := by simp [exec, hu]
        rw [he]; exact ⟨qlen, qUnp, qLiv, sym, pLive⟩
      · have he : (exec s (Op.connect h)).1 =
            { s with registry := h :: s.registry, used := h :: s.used } := by
          simp [exec, hu]
        rw [he]
        refine ⟨qlen, qUnp, ?_, sym, ?_⟩
        · intro x hx
          exact List.mem_cons_of_mem _ (qLiv x hx)
        · intro a b hab
          have := pLive a b hab
          exact ⟨List.mem_cons_of_mem _ this.1, List.mem_cons_of_mem _ this.2⟩
  | find h =>
      by_cases hr : h ∈ s.registry
      · have he : (exec s (Op.find h)).1 = (onFind s h).1 := by simp [exec, hr]
        rw [he]; exact inv_onFind s h hr ⟨qlen, qUnp, qLiv, sym, pLive⟩
      · have he : (exec s (Op.find h)).1 = s := by simp [exec, hr]
        rw [he]; exact ⟨qlen, qUnp, qLiv, sym, pLive⟩
  | leave h =>
      by_cases hr : h ∈ s.registry
      · have he : (exec s (Op.leave h)).1 = (onLeave s h).1 := by simp [exec, hr]
        rw [he]; exact inv_onLeave s h ⟨qlen, qUnp, qLiv, sym, pLive⟩
      · have he : (exec s (Op.leave h)).1 = s := by simp [exec, hr]
        rw [he]; exact ⟨qlen, qUnp, qLiv, sym, pLive⟩
  | disconnect h =>
      by_cases hr : h ∈ s.registry
      · have he : (exec s (Op.disconnect h)).1 = (onDisconnect s h).1 := by simp [exec, hr]
        rw [he]; exact inv_onDisconnect s h ⟨qlen, qUnp, qLiv, sym, pLive⟩
      · have he : (exec s (Op.disconnect h)).1 = s := by simp [exec, hr]
        rw [he]; exact ⟨qlen, qUnp, qLiv, sym, pLive⟩
  | message h text =>
      by_cases hr : h ∈ s.registry
      · have he : (exec s (Op.message h text)).1 = (onMessage s h text).1 := by simp [exec, hr]
        rw [he]; exact inv_onMessage s h text ⟨qlen, qUnp, qLiv, sym, pLive⟩
      · have he : (exec s (Op.message h text)).1 = s := by simp [exec, hr]
        rw [he]; exact ⟨qlen, qUnp, qLiv, sym, pLive⟩
  | offer h sdp =>
      have he : (exec s (Op.offer h sdp)).1 = s := by
        by_cases hr : h ∈ s.registry
        · simp [exec, hr, onOffer_fst]
        · simp [exec, hr]
      rw [he]; exact ⟨qlen, qUnp, qLiv, sym, pLive⟩
  | answer h tgt sdp =>
      have he : (exec s (Op.answer h tgt sdp)).1 = s := by
        by_cases hr : h ∈ s.registry
        · simp [exec, hr, onAnswer_fst]
        · simp [exec, hr]
      rw [he]; exact ⟨qlen, qUnp, qLiv, sym, pLive⟩
  | ice h c =>
      have he : (exec s (Op.ice h c)).1 = s := by
        by_cases hr : h ∈ s.registry
        · simp [exec, hr, onIce_fst]
        · simp [exec, hr]
      rw [he]; exact ⟨qlen, qUnp, qLiv, sym, pLive⟩
  | typing h f =>
      have he : (exec s (Op.typing h f)).1 = s := by
        by_cases hr : h ∈ s.registry
        · simp [exec, hr, onTyping_fst]
        · simp [exec, hr]
      rw [he]; exact ⟨qlen, qUnp, qLiv, sym, pLive⟩
  | fire tid =>
      cases hf : s.timers.find? (fun t => t.tid == tid) with
      | none =>
          have he : (exec s (Op.fire tid)).1 = s := by simp [exec, hf]
          rw [he]; exact ⟨qlen, qUnp, qLiv, sym, pLive⟩
      | some t =>
          by_cases hd : t.fireAt ≤ s.now
          · have he : (exec s (Op.fire tid)).1 = (fireTimer s t).1 := by simp [exec, hf, hd]
            rw [he]; exact inv_fireTimer s t ⟨qlen, qUnp, qLiv, sym, pLive⟩
          · have he : (exec s (Op.fire tid)).1 = s := by simp [exec, hf, hd]
            rw [he]; exact ⟨qlen, qUnp, qLiv, sym, pLive⟩
  | tick d =>
      exact ⟨qlen, qUnp, qLiv, sym, pLive⟩

/-- The invariant holds along every run. -/
theorem inv_execState (ops : List Op) : ∀ s : ServerState, Inv s → Inv (execState s ops) := by
  induction ops with
  | nil => intro s I; simpa [execState] using I
  | cons op rest ih =>
      intro s I
      have he : execState s (op :: rest) = execState (exec s op).1 rest := rfl
      rw [he]
      exact ih _ (inv_exec s op I)

/-- `find` never changes the socket registry. -/
theorem onFind_registry (s : ServerState) (h : SocketId) :
    (onFind s h).1.registry = s.registry := by
  unfold onFind
  split
  · rfl
  · split
    · split
      · simp [pairSockets]
      · rfl
    · simp [scheduleBotTimer, ENABLE_BOT_FALLBACK]

theorem findInv_step (done : List SocketId) (s : ServerState) (h : SocketId)
    (hreg : h ∈ s.registry) (hnew : h ∉ done) (F : FindInv done s) :
    FindInv (h :: done) (onFind s h).1 := by
  obtain ⟨base, settled, dom, qdom⟩ := F
  have base' : Inv (onFind s h).1 := inv_onFind s h hreg base
  obtain ⟨qlen, qUnp, qLiv, sym, pLive⟩ := base
  have hpn : s.partners h = none := by
    cases hpv : s.partners h with
    | none => rfl
    | some v => exact absurd (dom h (by rw [hpv]; rfl)) hnew
  cases hq : s.waitingQueue with
  | nil =>
      have he : (onFind s h).1 =
          scheduleBotTimer { s with waitingQueue := s.waitingQueue ++ [h] } h := by
        simp [onFind, hpn, hq, ENABLE_BOT_FALLBACK]
      refine ⟨base', ?_, ?_, ?_⟩
      · intro x hx
        rw [he]
        rcases List.mem_cons.mp hx with rfl | hxd
        · left
          constructor
          · simp [scheduleBotTimer, hq]
          · simpa [scheduleBotTimer] using hpn
        · rcases settled x hxd with ⟨hxq, _⟩ | ⟨p, hpx, hxp⟩
          · rw [hq] at hxq; exact absurd hxq (List.not_mem_nil x)
          · right; exact ⟨p, hpx, by simpa [scheduleBotTimer] using hxp⟩
      · intro x hxs
        rw [he] at hxs
        simp only [scheduleBotTimer] at hxs
        exact List.mem_cons_of_mem _ (dom x hxs)
      · intro x hxq
        rw [he] at hxq
        simp [scheduleBotTimer, hq] at hxq
        simp [hxq]
  | cons other rest =>
      have hrest : rest = [] := by
        have hl := qlen
        rw [hq] at hl
        simpa using hl
      have hom : other ∈ s.waitingQueue := by rw [hq]; exact List.mem_cons_self _ _
      have hod : other ∈ done := qdom other hom
      have horeg : other ∈ s.registry := qLiv other hom
      have hoh : other ≠ h := by
        intro hh; exact hnew (hh ▸ hod)
      have he : (onFind s h).1 = (pairSockets { s with waitingQueue := rest } h other).1 := by
        simp [onFind, hpn, hq, horeg]
      have hpfun : ∀ x, (onFind s h).1.partners x =
          if x = other then some (PVal.human h)
          else if x = h then some (PVal.human other)
          else s.partners x := by
        intro x
        rw [he, pairSockets_partners]
      refine ⟨base', ?_, ?_, ?_⟩
      · intro x hx
        rcases List.mem_cons.mp hx with rfl | hxd
        · right
          refine ⟨other, hoh, ?_⟩
          rw [hpfun]
          by_cases hxo : x = other
          · rw [if_pos hxo, hxo]
          · rw [if_neg hxo, if_pos rfl]
        · by_cases hxo : x = other
          · right
            refine ⟨h, fun hh => hoh (hxo ▸ hh.symm ▸ rfl), ?_⟩
            rw [hpfun, if_pos hxo]
          · by_cases hxh : x = h
            · exact absurd (hxh ▸ hxd) hnew
            · rcases settled x hxd with ⟨hxq, _⟩ | ⟨p, hpx, hxp⟩
              · rw [hq] at hxq
                rcases List.mem_cons.mp hxq with h1 | h1
                · exact absurd h1 hxo
                · rw [hrest] at h1; exact absurd h1 (List.not_mem_nil x)
              · right
                refine ⟨p, hpx, ?_⟩
                rw [hpfun, if_neg hxo, if_neg hxh]
                exact hxp
      · intro x hxs
        rw [hpfun] at hxs
        by_cases hxo : x = other
        · exact List.mem_cons_of_mem _ (hxo ▸ hod)
        · by_cases hxh : x = h
          · simp [hxh]
          · rw [if_neg hxo, if_neg hxh] at hxs
            exact List.mem_cons_of_mem _ (dom x hxs)
      · intro x hxq
        rw [he] at hxq
        simp only [pairSockets] at hxq
        rw [hrest] at hxq
        exact absurd hxq (List.not_mem_nil x)

theorem findPhase_inv (fs : List SocketId) : ∀ (done : List SocketId) (s : ServerState),
    FindInv done s → fs.Nodup → (∀ x, x ∈ fs → x ∉ done) → (∀ x, x ∈ fs → x ∈ s.registry) →
    ∃ done2, (∀ x, x ∈ fs ∨ x ∈ done → x ∈ done2) ∧
      FindInv done2 (execState s (fs.map Op.find)) := by
  induction fs with
  | nil =>
      intro done s F _ _ _
      refine ⟨done, ?_, by simpa [execState] using F⟩
      intro x hx
      rcases hx with h1 | h1
      · exact absurd h1 (List.not_mem_nil x)
      · exact h1
  | cons f rest ih =>
      intro done s F hnd hfresh hregs
      have hfreg : f ∈ s.registry := hregs f (List.mem_cons_self _ _)
      have hfnew : f ∉ done := hfresh f (List.mem_cons_self _ _)
      have step := findInv_step done s f hfreg hfnew F
      have hee : execState s ((f :: rest).map Op.find) =
          execState (onFind s f).1 (rest.map Op.find) := by
        simp only [List.map_cons]
        show execState (exec s (Op.find f)).1 (rest.map Op.find) = _
        rw [show (exec s (Op.find f)).1 = (onFind s f).1 by simp [exec, hfreg]]
      have hrp : (onFind s f).1.registry = s.registry := onFind_registry s f
      have hnd2 : rest.Nodup := (List.nodup_cons.mp hnd).2
      have hfnr : f ∉ rest := (List.nodup_cons.mp hnd).1
      have hfresh2 : ∀ x, x ∈ rest → x ∉ f :: done := by
        intro x hx hmem
        rcases List.mem_cons.mp hmem with h1 | h1
        · exact hfnr (h1 ▸ hx)
        · exact hfresh x (List.mem_cons_of_mem _ hx) h1
      have hregs2 : ∀ x, x ∈ rest → x ∈ (onFind s f).1.registry := by
        intro x hx
        rw [hrp]
        exact hregs x (List.mem_cons_of_mem _ hx)
      obtain ⟨done2, hsub, F2⟩ := ih (f :: done) (onFind s f).1 step hnd2 hfresh2 hregs2
      refine ⟨done2, ?_, by rwa [hee]⟩
      intro x hx
      rcases hx with h1 | h1
      · rcases List.mem_cons.mp h1 with h2 | h2
        · exact hsub x (Or.inr (h2 ▸ List.mem_cons_self _ _))
        · exact hsub x (Or.inl h2)
      · exact hsub x (Or.inr (List.mem_cons_of_mem _ h1))

theorem connect_run (hs : List SocketId) : ∀ s : ServerState,
    (∀ x, x ∈ s.used → x ∈ s.registry) →
    ((execState s (hs.map Op.connect)).waitingQueue = s.waitingQueue ∧
     (execState s (hs.map Op.connect)).partners = s.partners) ∧
    ((∀ x, x ∈ s.registry ∨ x ∈ hs → x ∈ (execState s (hs.map Op.connect)).registry) ∧
     (∀ x, x ∈ (execState s (hs.map Op.connect)).used →
        x ∈ (execState s (hs.map Op.connect)).registry)) := by
  induction hs with
  | nil =>
      intro s hu
      refine ⟨⟨rfl, rfl⟩, ⟨?_, hu⟩⟩
      intro x hx
      rcases hx with h1 | h1
      · exact h1
      · exact absurd h1 (List.not_mem_nil x)
  | cons a rest ih =>
      intro s hu
      by_cases ha : a ∈ s.used
      · have he : (exec s (Op.connect a)).1 = s := by simp [exec, ha]
        have hee : execState s ((a :: rest).map Op.connect) =
            execState s (rest.map Op.connect) := by
          simp only [List.map_cons]
          show execState (exec s (Op.connect a)).1 (rest.map Op.connect) = _
          rw [he]
        obtain ⟨⟨h1, h2⟩, h3, h4⟩ := ih s hu
        rw [hee]
        refine ⟨⟨h1, h2⟩, ⟨?_, h4⟩⟩
        intro x hx
        rcases hx with h5 | h5
        · exact h3 x (Or.inl h5)
        · rcases List.mem_cons.mp h5 with h6 | h6
          · exact h3 x (Or.inl (h6 ▸ hu a ha))
          · exact h3 x (Or.inr h6)
      · have he : (exec s (Op.connect a)).1 =
            { s with registry := a :: s.registry, used := a :: s.used } := by
          simp [exec, ha]
        have hee : execState s ((a :: rest).map Op.connect) =
            execState { s with registry := a :: s.registry, used := a :: s.used }
              (rest.map Op.connect) := by
          simp only [List.map_cons]
          show execState (exec s (Op.connect a)).1 (rest.map Op.connect) = _
          rw [he]
        have hu2 : ∀ x, x ∈ ({ s with registry := a :: s.registry, used := a :: s.used } : ServerState).used →
            x ∈ ({ s with registry := a :: s.registry, used := a :: s.used } : ServerState).registry := by
          intro x hx
          rcases List.mem_cons.mp hx with h1 | h1
          · simp [h1]
          · exact List.mem_cons_of_mem _ (hu x h1)
        obtain ⟨⟨h1, h2⟩, h3, h4⟩ := ih _ hu2
        rw [hee]
        refine ⟨⟨h1, h2⟩, ⟨?_, h4⟩⟩
        intro x hx
        rcases hx with h5 | h5
        · exact h3 x (Or.inl (List.mem_cons_of_mem _ h5))
        · rcases List.mem_cons.mp h5 with h6 | h6
          · exact h3 x (Or.inl (h6 ▸ List.mem_cons_self _ _))
          · exact h3 x (Or.inr h6)

/-- After connecting `hs` and running distinct finds `fs`, some `done2`
containing `fs` satisfies the find-phase invariant. -/
theorem findRun_spec (hs fs : List SocketId) (hnd : fs.Nodup)
    (hsub : ∀ x, x ∈ fs → x ∈ hs) :
    ∃ done2, (∀ x, x ∈ fs → x ∈ done2) ∧ FindInv done2 (findRun hs fs) := by
  have hu0 : ∀ x, x ∈ init.used → x ∈ init.registry := by
    intro x hx; exact absurd hx (List.not_mem_nil x)
  obtain ⟨⟨hq, hpart⟩, hregm, _⟩ := connect_run hs init hu0
  have hbase : Inv (execState init (hs.map Op.connect)) :=
    inv_execState (hs.map Op.connect) init inv_init
  have F0 : FindInv [] (execState init (hs.map Op.connect)) := by
    refine ⟨hbase, ?_, ?_, ?_⟩
    · intro x hx; exact absurd hx (List.not_mem_nil x)
    · intro x hxs
      rw [hpart] at hxs
      simp [init] at hxs
    · intro x hxq
      rw [hq] at hxq
      simp [init] at hxq
  have hregs : ∀ x, x ∈ fs → x ∈ (execState init (hs.map Op.connect)).registry := by
    intro x hx
    exact hregm x (Or.inr (hsub x hx))
  have hfresh : ∀ x, x ∈ fs → x ∉ ([] : List SocketId) := by
    intro x _ hx; exact absurd hx (List.not_mem_nil x)
  obtain ⟨done2, hd2, F2⟩ := findPhase_inv fs [] _ F0 hnd hfresh hregs
  refine ⟨done2, ?_, ?_⟩
  · intro x hx; exact hd2 x (Or.inl hx)
  · have : findRun hs fs = execState (execState init (hs.map Op.connect)) (fs.map Op.find) := by
      simp [findRun, execState, List.foldl_append]
    rwa [this]

/-- When the disconnecting socket's `botTimeout` references timer `tid`, the
disconnect handler removes exactly that timer. -/
theorem onDisconnect_timers_some (s : ServerState) (h : SocketId) (tid : Nat)
    (hbr : s.botRef h = some tid) :
    (onDisconnect s h).1.timers = s.timers.filter (fun t => t.tid ≠ tid) := by
  unfold onDisconnect
  cases hpp : s.partners h with
  | none => simp [hbr, hpp]
  | some v =>
      cases v with
      | bot => simp [hbr, hpp]
      | human p =>
          simp only [hbr, hpp]
          split <;> rfl

/-- Case description of the events emitted by the offer handler. -/
theorem onOffer_snd (s : ServerState) (h : SocketId) (sdp : String) :
    (onOffer s h sdp).2 =
      match s.partners h with
      | none => []
      | some PVal.bot => []
      | some (PVal.human p) =>
          if p ∈ s.registry then [Event.offer p h sdp]
          else [Event.status h "Partner disconnected (during offer)."] := by
  unfold onOffer
  cases hpp : s.partners h with
  | none => rfl
  | some v =>
      cases v with
      | bot => rfl
      | human p =>
          dsimp only
          split <;> rfl

/-- Case description of the events emitted by the ICE handler. -/
theorem onIce_snd (s : ServerState) (h : SocketId) (c : String) :
    (onIce s h c).2 =
      match s.partners h with
      | none => []
      | some PVal.bot => []
      | some (PVal.human p) =>
          if p ∈ s.registry then [Event.ice p h c] else [] := by
  unfold onIce
  cases hpp : s.partners h with
  | none => rfl
  | some v =>
      cases v with
      | bot => rfl
      | human p =>
          dsimp only
          split <;> rfl

/-- C1 is refuted as stated: after `connect 0, find 0, find 0` — a sequence
of `find` operations issued by a connected handle — handle `0` has been
popped from the queue head by its own second `find` and paired with itself
(`partners[0] = 0`), violating "no handle's partner-directory entry is the
handle itself". -/
theorem C1_counterexample :
    ¬ NoSelfPairing (execState init [Op.connect 0, Op.find 0, Op.find 0]) := by
  intro H
  exact H 0 (by decide)

/-- C1 (amended): for a run in which the handles `hs` connect and the
distinct handles `fs` (each issuing `find` at most once) call `find`, every
handle that issued `find` afterwards is either in the waiting queue with no
partner-directory entry, or not in the queue and holding a directory entry
for a handle different from itself — never both, never itself. -/
theorem C1_amended_theorem (hs fs : List SocketId) (hnd : fs.Nodup)
    (hsub : ∀ x, x ∈ fs → x ∈ hs) (h : SocketId) (hin : h ∈ fs) :
    (h ∈ (findRun hs fs).waitingQueue ∧ (findRun hs fs).partners h = none) ∨
    (h ∉ (findRun hs fs).waitingQueue ∧
      ∃ p, p ≠ h ∧ (findRun hs fs).partners h = some (PVal.human p)) := by
  obtain ⟨done2, hd2, F2⟩ := findRun_spec hs fs hnd hsub
  rcases F2.settled h (hd2 h hin) with ⟨h1, h2⟩ | ⟨p, hpne, hp⟩
  · exact Or.inl ⟨h1, h2⟩
  · refine Or.inr ⟨?_, p, hpne, hp⟩
    intro hq
    rw [F2.base.qUnpaired h hq] at hp
    exact Option.noConfusion hp

/-- Witness for C1 (amended) at the concrete run `[0, 1]` connect then
`[0, 1]` find: handle `1` ends up settled. -/
theorem C1_amended_witness :
    ([0, 1] : List SocketId).Nodup ∧ (1 : SocketId) ∈ ([0, 1] : List SocketId) ∧
    (((1 : SocketId) ∈ (findRun [0, 1] [0, 1]).waitingQueue ∧
        (findRun [0, 1] [0, 1]).partners 1 = none) ∨
     ((1 : SocketId) ∉ (findRun [0, 1] [0, 1]).waitingQueue ∧
        ∃ p, p ≠ 1 ∧ (findRun [0, 1] [0, 1]).partners 1 = some (PVal.human p))) :=
  ⟨by decide, by decide,
   C1_amended_theorem [0, 1] [0, 1] (by decide) (fun x hx => hx) 1 (by decide)⟩

/-- C2: directory symmetry is an invariant preserved by every operation. In
any state reachable from the initial state by an arbitrary operation
sequence (find, leave, disconnect, timer fire, message, signaling, ticks),
if handle `a`'s partner-directory entry is the human handle `b`, then `b`'s
entry is `a`. -/
theorem C2_directory_symmetry (ops : List Op) (a b : SocketId)
    (hab : (execState init ops).partners a = some (PVal.human b)) :
    (execState init ops).partners b = some (PVal.human a) :=
  (inv_execState ops init inv_init).sym a b hab

/-- Witness for C2 after the run that pairs sockets `0` and `1`. -/
theorem C2_witness :
    (execState init [Op.connect 0, Op.connect 1, Op.find 0, Op.find 1]).partners 1
      = some (PVal.human 0) ∧
    (execState init [Op.connect 0, Op.connect 1, Op.find 0, Op.find 1]).partners 0
      = some (PVal.human 1) :=
  ⟨by decide,
   C2_directory_symmetry [Op.connect 0, Op.connect 1, Op.find 0, Op.find 1] 1 0 (by decide)⟩

/-- C3 is refuted as stated: after find (t=0) → leave (t=1000) → find
(t=1000), handle `0` has TWO active BotFallbackTimers (due at 15000 and
16000) because `leave` never cancels the timer, and firing the first timer
at t=15000 bot-pairs the handle — earlier than 15 s after its latest enqueue
(which would be t=16000). -/
theorem C3_counterexample :
    (execState init c3ops).timers.map Timer.fireAt = [15000, 16000] ∧
    (execState init c3ops).now = 15000 ∧
    0 ∈ (execState init c3ops).waitingQueue ∧
    (execState init (c3ops ++ [Op.fire 0])).partners 0 = some PVal.bot :=
  ⟨by decide, by decide, by decide, by decide⟩

/-- C3 (amended): only `disconnect` cancels the timer referenced by the
socket's `botTimeout`; for the other queue-leaving paths the timer stays
active, and its fire-time re-check makes it a pure no-op (timer consumed,
nothing emitted, nothing else changed) whenever its owner is no longer
queued or is paired. -/
theorem C3_amended_theorem (s : ServerState) (h : SocketId) (tid : Nat) (t : Timer) :
    (s.botRef h = some tid → ∀ u, u ∈ (onDisconnect s h).1.timers → u.tid ≠ tid) ∧
    (t.kind = TimerKind.botFallback →
      (t.owner ∉ s.waitingQueue ∨ (s.partners t.owner).isSome) →
      fireTimer s t = ({ s with timers := s.timers.filter (fun u => u.tid ≠ t.tid) }, [])) := by
  constructor
  · intro hbr u hu
    rw [onDisconnect_timers_some s h tid hbr] at hu
    simp only [List.mem_filter] at hu
    simpa using hu.2
  · intro hk hc
    have hnc : ¬ (t.owner ∈ s.waitingQueue ∧ s.partners t.owner = none) := by
      rcases hc with h1 | h1
      · exact fun hcc => h1 hcc.1
      · intro hcc
        rw [hcc.2] at h1
        simp at h1
    simp [fireTimer, hk, botFallbackCb, hnc]

/-- Witness for C3 (amended) at `spair`, where socket `0`'s fallback timer
is still active after it was matched. -/
theorem C3_amended_witness :
    spair.botRef 0 = some 0 ∧
    (∀ u, u ∈ (onDisconnect spair 0).1.timers → u.tid ≠ 0) ∧
    fireTimer spair ⟨0, 0, 15000, TimerKind.botFallback⟩ =
      ({ spair with timers := spair.timers.filter (fun u => u.tid ≠ 0) }, []) :=
  ⟨by decide,
   (C3_amended_theorem spair 0 0 ⟨0, 0, 15000, TimerKind.botFallback⟩).1 (by decide),
   (C3_amended_theorem spair 0 0 ⟨0, 0, 15000, TimerKind.botFallback⟩).2 rfl
     (Or.inl (by decide))⟩

/-- C4 is refuted as stated: a `webrtc-answer` from handle `0` (which has no
pairing at all) addressed to the dead target `99` produces NO status message
— the event list is empty, not a rejection message to the sender. (State is
indeed unmutated.) -/
theorem C4_counterexample :
    sone.partners 0 = none ∧ (99 : SocketId) ∉ sone.registry ∧
    onAnswer sone 0 99 "sdp" = (sone, []) := by
  refine ⟨by decide, by decide, ?_⟩
  have h99 : (99 : SocketId) ∉ sone.registry := by decide
  simp [onAnswer, h99]

/-- C4 (amended): a `webrtc-answer` addressed to a target whose transport is
not live is dropped silently: nothing is emitted and the state is unchanged.
No pairing validation is performed on the answer path. -/
theorem C4_amended_theorem (s : ServerState) (h tgt : SocketId) (sdp : String)
    (hdead : tgt ∉ s.registry) :
    onAnswer s h tgt sdp = (s, []) := by
  simp [onAnswer, hdead]

/-- Witness for C4 (amended) at `sone` with dead target `99`. -/
theorem C4_amended_witness :
    (99 : SocketId) ∉ sone.registry ∧ onAnswer sone 0 99 "x" = (sone, []) :=
  ⟨by decide, C4_amended_theorem sone 0 99 "x" (by decide)⟩

/-- C5 is refuted as stated: on a state where handle `0`'s directory entry
refers to a transport that is no longer live, the offer handler emits a
status message to the sender (source line 76) instead of dropping the offer
silently with no notification. -/
theorem C5_counterexample :
    sbad.partners 0 = some (PVal.human 1) ∧ (1 : SocketId) ∉ sbad.registry ∧
    (onOffer sbad 0 "sdp").2 = [Event.status 0 "Partner disconnected (during offer)."] := by
  refine ⟨by decide, by decide, ?_⟩
  rfl

/-- C5 (amended): an offer with an absent or BOT partner entry is dropped
silently; with a live human partner it is forwarded annotated `from = h`;
with a directory entry referring to a dead transport the sender receives a
status message (and nothing is forwarded). The state is never mutated. -/
theorem C5_amended_theorem (s : ServerState) (h : SocketId) (sdp : String) (p : SocketId) :
    ((s.partners h = none ∨ s.partners h = some PVal.bot) → onOffer s h sdp = (s, [])) ∧
    (s.partners h = some (PVal.human p) → p ∈ s.registry →
      onOffer s h sdp = (s, [Event.offer p h sdp])) ∧
    (s.partners h = some (PVal.human p) → p ∉ s.registry →
      onOffer s h sdp = (s, [Event.status h "Partner disconnected (during offer)."])) := by
  refine ⟨?_, ?_, ?_⟩
  · intro hc
    rcases hc with h1 | h1 <;> simp [onOffer, h1]
  · intro h1 h2
    simp [onOffer, h1, h2]
  · intro h1 h2
    simp [onOffer, h1, h2]

/-- Witness for C5 (amended), exercising all three branches: no partner
(`sone`), live partner (`spair`), dead partner entry (`sbad`). -/
theorem C5_amended_witness :
    sone.partners 0 = none ∧ onOffer sone 0 "a" = (sone, []) ∧
    spair.partners 0 = some (PVal.human 1) ∧ (1 : SocketId) ∈ spair.registry ∧
    onOffer spair 0 "b" = (spair, [Event.offer 1 0 "b"]) ∧
    sbad.partners 0 = some (PVal.human 1) ∧ (1 : SocketId) ∉ sbad.registry ∧
    onOffer sbad 0 "c" = (sbad, [Event.status 0 "Partner disconnected (during offer)."]) :=
  ⟨by decide, (C5_amended_theorem sone 0 "a" 1).1 (Or.inl (by decide)),
   by decide, by decide, (C5_amended_theorem spair 0 "b" 1).2.1 (by decide) (by decide),
   by decide, by decide, (C5_amended_theorem sbad 0 "c" 1).2.2 (by decide) (by decide)⟩

/-- C6: a `webrtc-answer` from `h` addressed to any live target `tgt` is
delivered to `tgt` annotated `from = h`, with no partner-directory
validation — the hypothesis mentions only the registry, never `partners`. -/
theorem C6_answer_forwarded (s : ServerState) (h tgt : SocketId) (sdp : String)
    (hlive : tgt ∈ s.registry) :
    onAnswer s h tgt sdp = (s, [Event.answer tgt h sdp]) := by
  simp [onAnswer, hlive]

/-- Witness for C6 at `sconn`, where `0` and `1` are connected but NOT
paired: the answer is still delivered. -/
theorem C6_witness :
    (1 : SocketId) ∈ sconn.registry ∧ sconn.partners 0 = none ∧
    onAnswer sconn 0 1 "x" = (sconn, [Event.answer 1 0 "x"]) :=
  ⟨by decide, by decide, C6_answer_forwarded sconn 0 1 "x" (by decide)⟩

/-- C7: the bot-fallback callback body is a no-op unless its handle is still
in the waiting queue and unpaired (both re-checked at fire time); when both
hold it removes the handle from the queue, sets its directory entry to BOT,
and emits `paired` with `bot = true` followed by the bot greeting message to
that handle alone. -/
theorem C7_bot_fallback_fire (s : ServerState) (h : SocketId) :
    (¬ (h ∈ s.waitingQueue ∧ s.partners h = none) → botFallbackCb s h = (s, [])) ∧
    (h ∈ s.waitingQueue → s.partners h = none →
      botFallbackCb s h =
        ({ s with waitingQueue := s.waitingQueue.filter (fun x => x ≠ h)
                  partners := pset s.partners h PVal.bot },
         [Event.paired h PVal.bot true, Event.message h MsgFrom.bot botGreeting])) := by
  constructor
  · intro hc
    simp [botFallbackCb, hc]
  · intro h1 h2
    simp [botFallbackCb, h1, h2]

/-- Witness for C7: the fire branch at `swait` (socket `5` queued,
unpaired) and the no-op branch at `sone` (socket `0` not queued). -/
theorem C7_witness :
    ((5 : SocketId) ∈ swait.waitingQueue ∧ swait.partners 5 = none ∧
      botFallbackCb swait 5 =
        ({ swait with waitingQueue := swait.waitingQueue.filter (fun x => x ≠ 5)
                      partners := pset swait.partners 5 PVal.bot },
         [Event.paired 5 PVal.bot true, Event.message 5 MsgFrom.bot botGreeting])) ∧
    (¬ ((0 : SocketId) ∈ sone.waitingQueue ∧ sone.partners 0 = none) ∨
        botFallbackCb sone 0 = (sone, [])) := by
  refine ⟨⟨by decide, by decide,
    (C7_bot_fallback_fire swait 5).2 (by decide) (by decide)⟩, Or.inr ?_⟩
  exact (C7_bot_fallback_fire sone 0).1 (by decide)

/-- C8: a `message` from a handle whose partner entry is BOT emits nothing
immediately (no echo to the sender, nothing to anyone else) and schedules a
single timer due exactly 700 ms later; firing a bot-reply timer emits exactly
one `message` to that handle alone with `from = bot`, whose text is the
canned template with the submitted text embedded. -/
theorem C8_bot_reply (s : ServerState) (h : SocketId) (text : String)
    (hb : s.partners h = some PVal.bot) :
    (onMessage s h text).2 = [] ∧
    (onMessage s h text).1.timers =
      s.timers ++ [⟨s.nextTid, h, s.now + 700, TimerKind.botReply text⟩] ∧
    (∀ s2 : ServerState, ∀ t : Timer, t.owner = h → t.kind = TimerKind.botReply text →
      (fireTimer s2 t).2 = [Event.message h MsgFrom.bot (botReplyText text)]) ∧
    botReplyText text = "Bot: I heard \"" ++ text ++ "\"." := by
  refine ⟨by simp [onMessage, hb], by simp [onMessage, hb], ?_, rfl⟩
  intro s2 t hto hkind
  simp [fireTimer, hkind, hto]

/-- Witness for C8 at `sbot` (socket `0` bot-paired) with text "hi". -/
theorem C8_witness :
    sbot.partners 0 = some PVal.bot ∧
    (onMessage sbot 0 "hi").2 = [] ∧
    (onMessage sbot 0 "hi").1.timers =
      sbot.timers ++ [⟨sbot.nextTid, 0, sbot.now + 700, TimerKind.botReply "hi"⟩] ∧
    (∀ s2 : ServerState, ∀ t : Timer, t.owner = 0 → t.kind = TimerKind.botReply "hi" →
      (fireTimer s2 t).2 = [Event.message 0 MsgFrom.bot (botReplyText "hi")]) ∧
    botReplyText "hi" = "Bot: I heard \"" ++ "hi" ++ "\"." :=
  ⟨by decide, C8_bot_reply sbot 0 "hi" (by decide)⟩

/-- C9: `find` from a handle that already has a partner-directory entry
(human or BOT) is rejected: the handler returns the state COMPLETELY
unchanged (queue, directory, timers, clock) together with exactly one status
message to the caller. -/
theorem C9_find_rejected (s : ServerState) (h : SocketId) (v : PVal)
    (hp : s.partners h = some v) :
    onFind s h = (s, [Event.status h "Already connected"]) := by
  simp [onFind, hp]

/-- Witness for C9 at `spair`, where socket `0` is paired with `1`. -/
theorem C9_witness :
    spair.partners 0 = some (PVal.human 1) ∧
    onFind spair 0 = (spair, [Event.status 0 "Already connected"]) :=
  ⟨by decide, C9_find_rejected spair 0 (PVal.human 1) (by decide)⟩

/-- C10: for each of the three signaling handlers, any forwarded
`offer`/`answer`/`ice` event annotated `from = h` carries exactly the
submitted `sdp`/`candidate` payload — the relay only adds the `from` routing
metadata. -/
theorem C10_payload_preserved (s : ServerState) (h tgt : SocketId) (payload : String) :
    (∀ p x, Event.offer p h x ∈ (onOffer s h payload).2 → x = payload) ∧
    (∀ x, Event.answer tgt h x ∈ (onAnswer s h tgt payload).2 → x = payload) ∧
    (∀ p x, Event.ice p h x ∈ (onIce s h payload).2 → x = payload) := by
  refine ⟨?_, ?_, ?_⟩
  · intro p x hx
    rw [onOffer_snd] at hx
    revert hx
    cases hpp : s.partners h with
    | none => intro hx; simp at hx
    | some v =>
        cases v with
        | bot => intro hx; simp at hx
        | human q =>
            intro hx
            by_cases hqr : q ∈ s.registry
            · simp [hqr] at hx
              exact hx.2
            · simp [hqr] at hx
  · intro x hx
    revert hx
    by_cases ht : tgt ∈ s.registry <;> intro hx <;> simp [onAnswer, ht] at hx
    exact hx
  · intro p x hx
    rw [onIce_snd] at hx
    revert hx
    cases hpp : s.partners h with
    | none => intro hx; simp at hx
    | some v =>
        cases v with
        | bot => intro hx; simp at hx
        | human q =>
            intro hx
            by_cases hqr : q ∈ s.registry
            · simp [hqr] at hx
              exact hx.2
            · simp [hqr] at hx

/-- Witness for C10 at `spair`: all three events are forwarded, and the
offer payload received equals the payload sent. -/
theorem C10_witness :
    Event.offer 1 0 "PL" ∈ (onOffer spair 0 "PL").2 ∧
    Event.answer 1 0 "PL" ∈ (onAnswer spair 0 1 "PL").2 ∧
    Event.ice 1 0 "PL" ∈ (onIce spair 0 "PL").2 ∧
    ("PL" : String) = "PL" :=
  ⟨by decide, by decide, by decide,
   (C10_payload_preserved spair 0 1 "PL").1 1 "PL" (by decide)⟩

end Omegle
